import Mathlib

set_option maxHeartbeats 1000000
set_option maxRecDepth 100000

/- A shallow embedding of libbtrace.c, the exec-interposition build tracer.

   Modelling conventions:
   * A C string (NUL-terminated char*) is a `List Char` holding the bytes
     before the terminator; a char* that may be NULL is an `Option (List Char)`.
   * uint64_t arithmetic is Nat arithmetic reduced modulo 2 ^ 64 (`U64`).
   * A pointer into a NUL-terminated string is modelled as the suffix of the
     list starting at that pointer (the safeStrChr / safeStrRChr models return
     such suffixes, `none` standing for the NULL pointer).
   * The log-file session (open / lock / buffered write / flush / unlock /
     close) is a `LogFile` state: the bytes already written to the descriptor
     plus the staging buffer.  The file-system values the tracer reads
     (/proc/<pid>/stat contents, the /proc/self/cwd link target) are supplied
     by a `World` record.
   * A fatal diagnostic followed by abort (safeAssert failure or writeError)
     is `none` / `LogResult.aborted`. -/

/-- 2 ^ 64: the modulus of uint64_t arithmetic. -/
def U64 : Nat := 18446744073709551616

/-- safeIsDigit (libbtrace.c line 129): ch >= '0' && ch <= '9', as byte values. -/
def safeIsDigit (ch : Char) : Bool := decide (48 ≤ ch.toNat) && decide (ch.toNat ≤ 57)

/-- Loop of stringToUint64 (line 134): temp = temp * 10 + (*input - '0'),
    performed in uint64_t arithmetic, while the head character is a digit. -/
def stringToUint64Go : List Char → Nat → Nat
  | [], temp => temp
  | ch :: rest, temp =>
      if safeIsDigit ch then stringToUint64Go rest ((temp * 10 + (ch.toNat - 48)) % U64)
      else temp

/-- stringToUint64 (line 134): value of the longest leading digit run, as uint64_t. -/
def stringToUint64 (input : List Char) : Nat := stringToUint64Go input 0

/-- Mathematical (unbounded) value of the leading digit run, used to state the
    overflow behaviour of stringToUint64. -/
def digitRunValueGo : List Char → Nat → Nat
  | [], acc => acc
  | ch :: rest, acc =>
      if safeIsDigit ch then digitRunValueGo rest (acc * 10 + (ch.toNat - 48))
      else acc

/-- Value of the leading digit run without uint64 wraparound. -/
def digitRunValue (s : List Char) : Nat := digitRunValueGo s 0

/-- Digit-emitting loop of uint64ToString (line 117).  The C code fills a
    32-byte buffer from the right, at most 31 digits before the NUL; the fuel
    argument models that bound and is never exhausted for uint64 values. -/
def uint64ToStringAux : Nat → Nat → List Char → List Char
  | 0, _, acc => acc
  | fuel + 1, v, acc =>
      let acc1 := Char.ofNat (48 + v % 10) :: acc
      if v / 10 = 0 then acc1 else uint64ToStringAux fuel (v / 10) acc1

/-- uint64ToString (line 117): decimal representation, least padding, the NUL
    terminator being the end of the list. -/
def uint64ToString (v : Nat) : List Char := uint64ToStringAux 31 v []

/-- Reference decimal representation (most significant digit first), used only
    inside proofs. -/
def specDigits (v : Nat) : List Char :=
  if h : v < 10 then [Char.ofNat (48 + v)]
  else specDigits (v / 10) ++ [Char.ofNat (48 + v % 10)]
termination_by v
decreasing_by exact Nat.div_lt_self (by omega) (by omega)

/-- safeStrChr (line 60) in the suffix model: the suffix of the string starting
    at the first occurrence of c, or none (NULL).  The c = NUL case of the C
    code is not used by the tracer and is not modelled. -/
def safeStrChrSuffix (c : Char) : List Char → Option (List Char)
  | [] => none
  | x :: xs => if x = c then some (x :: xs) else safeStrChrSuffix c xs

/-- safeStrRChr (line 74): suffix starting at the last occurrence of c. -/
def safeStrRChrSuffix (c : Char) : List Char → Option (List Char)
  | [] => none
  | x :: xs =>
      match safeStrRChrSuffix c xs with
      | some r => some r
      | none => if x = c then some (x :: xs) else none

/-- A log-file session (struct LogFile, line 246): the bytes already written to
    the locked descriptor plus the staging buffer.  The buf list length is the
    bufCount field; the 1024-byte capacity is an invariant, not a type-level
    fact. -/
structure LogFile where
  written : List Char
  buf : List Char
deriving DecidableEq

/-- sizeof(logFile->buf): 1024 bytes. -/
def logBufCapacity : Nat := 1024

/-- flushLogFile (line 270): write the whole staging buffer (a short write is
    fatal, so the model appends all of it) and reset bufCount to 0. -/
def flushLogFile (lf : LogFile) : LogFile := ⟨lf.written ++ lf.buf, []⟩

/-- writeChar (line 278): flush first if the buffer is full, then append one
    byte to the staging buffer. -/
def writeChar (lf : LogFile) (ch : Char) : LogFile :=
  let lf1 := if lf.buf.length = logBufCapacity then flushLogFile lf else lf
  ⟨lf1.written, lf1.buf ++ [ch]⟩

/-- closeLogFile (line 285): flush, unlock, close; the bytes the session put in
    the file are the descriptor bytes after the final flush. -/
def closeLogFile (lf : LogFile) : List Char := (flushLogFile lf).written

/-- All bytes produced so far by a session (descriptor bytes plus staging
    buffer); closeLogFile lands exactly these bytes in the file. -/
def emitted (lf : LogFile) : List Char := lf.written ++ lf.buf

/-- writeString (line 299): repeated writeChar until the NUL terminator. -/
def writeString (lf : LogFile) (text : List Char) : LogFile := text.foldl writeChar lf

/-- Quoting condition of writeEscapedString (lines 309-311):
    safeStrChr(text, space) != NULL || safeStrChr(text, newline) != NULL. -/
def needsQuotesB (text : List Char) : Bool :=
  (safeStrChrSuffix ' ' text).isSome || (safeStrChrSuffix '\n' text).isSome

/-- Loop body of writeEscapedString (lines 314-319): backslashes and double
    quotes get a backslash prefix; every byte is then written verbatim. -/
def escWriteChar (lf : LogFile) (ch : Char) : LogFile :=
  if ch = '\\' || ch = '"' then writeChar (writeChar lf '\\') ch else writeChar lf ch

/-- writeEscapedString (line 307). -/
def writeEscapedString (lf : LogFile) (text : List Char) : LogFile :=
  let lf1 := if needsQuotesB text then writeChar lf '"' else lf
  let lf2 := text.foldl escWriteChar lf1
  if needsQuotesB text then writeChar lf2 '"' else lf2

/-- Bytes writeEscapedString produces for one input byte. -/
def escapeChar (ch : Char) : List Char :=
  if ch = '\\' || ch = '"' then ['\\', ch] else [ch]

/-- Escaped body of a value, before the optional enclosing quotes. -/
def escapeBody (text : List Char) : List Char :=
  text.foldr (fun c acc => escapeChar c ++ acc) []

/-- Byte sequence writeEscapedString appends for a whole value. -/
def escapeOut (text : List Char) : List Char :=
  if needsQuotesB text then '"' :: escapeBody text ++ ['"'] else escapeBody text

/-- Decoder taken from the specification text: replace each
    backslash-backslash pair by a backslash and each backslash-quote pair by a
    quote; other bytes are kept. -/
def unescape : List Char → List Char
  | [] => []
  | [c] => [c]
  | c1 :: c2 :: rest =>
      if c1 = '\\' && (c2 = '\\' || c2 = '"') then c2 :: unescape rest
      else c1 :: unescape (c2 :: rest)

/-- Decoder taken from the specification text: remove the enclosing double
    quotes if present, then unescape. -/
def decodeEscaped (s : List Char) : List Char :=
  if 2 ≤ s.length ∧ s.head? = some '"' ∧ s.getLast? = some '"' then
    unescape ((s.drop 1).dropLast)
  else unescape s

/-- libbtrace_c_NULL_constant (line 47): the hidden process-wide constant used
    for NULL comparisons the compiler would otherwise elide; its value is NULL. -/
def libbtrace_c_NULL_constant {α : Type} : Option α := none

/-- Argument loop of logExecution (lines 468-474).  The NULL terminator of the
    C argv array (compared against the hidden constant) is the end of the list. -/
def writeArgsLoop : LogFile → List (List Char) → Bool → LogFile
  | lf, [], _ => lf
  | lf, a :: rest, first =>
      let lf1 := if first then lf else writeChar lf ' '
      writeArgsLoop (writeEscapedString lf1 a) rest false

/-- Lines 467-475 of logExecution: the argument line, including its newline.
    An argv pointer equal to the hidden NULL constant is skipped entirely. -/
def writeArgs (lf : LogFile) (argv : Option (List (List Char))) : LogFile :=
  let lf1 :=
    if argv = libbtrace_c_NULL_constant then lf
    else writeArgsLoop lf (argv.getD []) true
  writeChar lf1 '\n'

/-- Pure description of the argument-line bytes before the newline. -/
def argsBody : List (List Char) → Bool → List Char
  | [], _ => []
  | a :: rest, first => (if first then [] else [' ']) ++ escapeOut a ++ argsBody rest false

/-- Argument-line bytes before the newline, for a possibly-NULL argv. -/
def argLine (argv : Option (List (List Char))) : List Char :=
  match argv with
  | none => []
  | some as => argsBody as true

/-- attemptWriteSymLinkTarget (line 324) for a link of target t: readlink
    stores min (t.length) size bytes; a strictly smaller return means the whole
    target was read, and it is written escaped, with a newline.  The value none
    models returning false (the target did not fit). -/
def attemptWriteSymLinkTarget (lf : LogFile) (t : List Char) (size : Nat) : Option LogFile :=
  if min t.length size < size then some (writeChar (writeEscapedString lf t) '\n')
  else none

/-- Loop of writeSymLinkTarget (lines 352-360): sizes 256, 512, ... while below
    1 MiB.  The fuel bounds the doublings; writeSymLinkTarget starts it at 13,
    which exceeds the 12 doublings possible from 256, so the fuel never changes
    the loop's result.  The value none is the fatal abort at line 361. -/
def symLinkLoop (t : List Char) (lf : LogFile) : Nat → Nat → Option LogFile
  | _, 0 => none
  | bufSize, fuel + 1 =>
      if bufSize < 1048576 then
        match attemptWriteSymLinkTarget lf t bufSize with
        | some lf1 => some lf1
        | none => symLinkLoop t lf (bufSize * 2) fuel
      else none

/-- writeSymLinkTarget (line 348). -/
def writeSymLinkTarget (t : List Char) (lf : LogFile) : Option LogFile :=
  symLinkLoop t lf 256 13

/-- Field-skipping loop of writePid (lines 424-429): n times, advance to the
    next space and step past it; none is a failed safeAssert. -/
def skipFields : Nat → List Char → Option (List Char)
  | 0, p => some p
  | n + 1, p =>
      match safeStrChrSuffix ' ' p with
      | none => none
      | some q => skipFields n (q.drop 1)

/-- Start-tick extraction of writePid (lines 415-436) on the first 1023 bytes
    of /proc/<pid>/stat: take the suffix at the rightmost closing parenthesis,
    skip the parenthesis-space pair, skip 19 space-delimited fields to reach
    field 22, require a terminating space, parse the decimal run there. -/
def statStartTick (content : List Char) : Option Nat :=
  match safeStrRChrSuffix ')' content with
  | none => none
  | some p0 =>
      match skipFields 19 (p0.drop 2) with
      | none => none
      | some p =>
          match safeStrChrSuffix ' ' p with
          | none => none
          | some _ => some (stringToUint64 p)

/-- Host state the tracer reads: the two pids, the /proc/<pid>/stat contents,
    the /proc/self/cwd link target, and the boot-tick constant cached by _init. -/
structure World where
  ppid : Nat
  pid : Nat
  procStat : Nat → List Char
  cwd : List Char
  bootTicks : Nat

/-- writePid (line 371): the decimal pid line, then the start-tick line
    computed from the first 1023 bytes of /proc/<pid>/stat (read into the
    1024-byte buffer and NUL-terminated); none is a fatal abort. -/
def writePid (w : World) (lf : LogFile) (pid : Nat) : Option LogFile :=
  let lf1 := writeChar (writeString lf (uint64ToString pid)) '\n'
  match statStartTick ((w.procStat pid).take 1023) with
  | none => none
  | some v =>
      some (writeChar (writeString lf1 (uint64ToString ((w.bootTicks + v) % U64))) '\n')

/-- Result of one intercepted call's logging: disabled (empty log path, no file
    opened or created), aborted (fatal diagnostic), or the record bytes
    appended under the session lock. -/
inductive LogResult where
  | disabled : LogResult
  | aborted : LogResult
  | wrote : List Char → LogResult
deriving DecidableEq

/-- openLogFile (line 252): a fresh locked session with an empty buffer. -/
def openLogFile : LogFile := ⟨[], []⟩

/-- logExecution (line 442). -/
def logExecution (w : World) (logFileName filename : List Char)
    (argv : Option (List (List Char))) : LogResult :=
  if logFileName = [] then LogResult.disabled
  else
    let lf := writeString openLogFile (String.toList "exec\n")
    match writePid w lf w.ppid with
    | none => LogResult.aborted
    | some lf1 =>
        match writePid w lf1 w.pid with
        | none => LogResult.aborted
        | some lf2 =>
            match writeSymLinkTarget w.cwd lf2 with
            | none => LogResult.aborted
            | some lf3 =>
                let lf4 := writeChar (writeEscapedString lf3 filename) '\n'
                let lf5 := writeArgs lf4 argv
                let lf6 := writeChar lf5 '\n'
                LogResult.wrote (closeLogFile lf6)

/-- Log-path setup in _init (lines 215-217): g_logFileName starts zeroed; a
    present BTRACE_LOG value strictly shorter than the 1024-byte buffer is
    copied, anything else leaves the buffer empty. -/
def initLogFileName (env : Option (List Char)) : List Char :=
  match env with
  | none => []
  | some v => if v.length < 1024 then v else []

/-- wrap_execve (line 483): log, then tail-call the real execve.  The abstract
    realExecve stands for the next-in-chain implementation resolved by _init;
    its result (return value together with errno) is returned unchanged. -/
def wrap_execve {α : Type}
    (realExecve : List Char → Option (List (List Char)) → Option (List (List Char)) → α)
    (w : World) (lfn path : List Char) (argv envp : Option (List (List Char))) : LogResult × α :=
  (logExecution w lfn path argv, realExecve path argv envp)

/-- wrap_execvpe (line 492). -/
def wrap_execvpe {α : Type}
    (realExecvpe : List Char → Option (List (List Char)) → Option (List (List Char)) → α)
    (w : World) (lfn file : List Char) (argv envp : Option (List (List Char))) : LogResult × α :=
  (logExecution w lfn file argv, realExecvpe file argv envp)

/-- Record bytes of a wrote result, [] otherwise. -/
def wroteBytes : LogResult → List Char
  | LogResult.wrote r => r
  | _ => []

/-- A cell of a variadic argument list: either a char* argument or the trailing
    char** environment pointer of execle. -/
inductive VaSlot where
  | charPtr : Option (List Char) → VaSlot
  | envPtr : Option (List (List Char)) → VaSlot
deriving DecidableEq

/-- va_arg reading a char*.  Reading a char** cell as char*, or reading past
    the end of the list, is undefined behaviour in C; the model yields NULL. -/
def readCharPtr : VaSlot → Option (List Char)
  | VaSlot.charPtr p => p
  | VaSlot.envPtr _ => none

/-- va_arg reading the char** environment pointer. -/
def readEnvPtr : VaSlot → Option (List (List Char))
  | VaSlot.envPtr e => e
  | VaSlot.charPtr _ => none

/-- One va_arg step on the modelled argument list. -/
def vaArg : List VaSlot → VaSlot × List VaSlot
  | [] => (VaSlot.charPtr none, [])
  | s :: rest => (s, rest)

/-- The while loop of ARG_COUNT (line 531): count va_arg reads before NULL. -/
def argCountLoop : List VaSlot → Nat
  | [] => 0
  | s :: rest => if readCharPtr s = none then 0 else argCountLoop rest + 1

/-- ARG_COUNT (line 525): 0 when the leading argument equals the hidden NULL,
    else 1 plus the variadic arguments before the NULL sentinel. -/
def ARG_COUNT (arg : Option (List Char)) (ap : List VaSlot) : Nat :=
  if arg = libbtrace_c_NULL_constant then 0 else argCountLoop ap + 1

/-- The populate loop of execle (lines 586-588): read n char* cells in order. -/
def takeArgs : Nat → List VaSlot → List (Option (List Char)) × List VaSlot
  | 0, ap => ([], ap)
  | n + 1, ap =>
      let sa := vaArg ap
      let ra := takeArgs n sa.2
      (readCharPtr sa.1 :: ra.1, ra.2)

/-- execle (line 576), returning the (path, argv, envp) triple handed to
    wrap_execve.  The argv list includes the trailing NULL stored at line 591;
    when the leading argument equals the hidden NULL the populate branch is
    skipped and envp is read by the va_arg at line 592. -/
def execle (path : List Char) (arg : Option (List Char)) (ap : List VaSlot) :
    List Char × List (Option (List Char)) × Option (List (List Char)) :=
  let count := ARG_COUNT arg ap
  if arg = libbtrace_c_NULL_constant then
    let es := vaArg ap
    (path, [none], readEnvPtr es.1)
  else
    let ma := takeArgs (count - 1) ap
    let skipRes := vaArg ma.2
    let es := vaArg skipRes.2
    (path, arg :: ma.1 ++ [none], readEnvPtr es.1)

/-- Strings of an argv array up to its NULL terminator. -/
def argvStrings : List (Option (List Char)) → List (List Char)
  | [] => []
  | none :: _ => []
  | some a :: rest => a :: argvStrings rest

/-- execle end to end: build the vector on the stack, then delegate to
    wrap_execve (the stack-allocated argv array itself is never NULL). -/
def execleFull {α : Type}
    (realExecve : List Char → Option (List (List Char)) → Option (List (List Char)) → α)
    (w : World) (lfn path : List Char) (arg : Option (List Char)) (ap : List VaSlot) :
    LogResult × α :=
  let r := execle path arg ap
  wrap_execve realExecve w lfn r.1 (some (argvStrings r.2.1)) r.2.2

/-- One session operation, for stating the staging-buffer invariant. -/
inductive LogOp where
  | wchar : Char → LogOp
  | wstr : List Char → LogOp
  | wesc : List Char → LogOp
  | wargs : Option (List (List Char)) → LogOp
  | flush : LogOp

/-- Apply one session operation to the session state. -/
def applyOp (lf : LogFile) : LogOp → LogFile
  | LogOp.wchar c => writeChar lf c
  | LogOp.wstr s => writeString lf s
  | LogOp.wesc s => writeEscapedString lf s
  | LogOp.wargs a => writeArgs lf a
  | LogOp.flush => flushLogFile lf

/-- Space-terminated concatenation of stat fields: f3 space f4 space ... rest. -/
def fieldsJoin (fields : List (List Char)) (rest : List Char) : List Char :=
  fields.foldr (fun f acc => f ++ ' ' :: acc) rest

/-- Example /proc/<pid>/stat content whose comm field contains both a closing
    parenthesis and spaces; field 22 (starttime) is 5000. -/
def statEx : List Char :=
  String.toList "200 (a) b (c) R 1 2 3 4 5 6 7 8 9 10 11 12 13 14 15 16 17 18 5000 0"

/-- Example world: parent pid 100, pid 200, boot tick 1000, cwd /w. -/
def wEx : World := ⟨100, 200, fun _ => statEx, String.toList "/w", 1000⟩

/-- Example stat fields 3 through 21. -/
def fieldsEx : List (List Char) :=
  [String.toList "R", String.toList "1", String.toList "2", String.toList "3",
   String.toList "4", String.toList "5", String.toList "6", String.toList "7",
   String.toList "8", String.toList "9", String.toList "10", String.toList "11",
   String.toList "12", String.toList "13", String.toList "14", String.toList "15",
   String.toList "16", String.toList "17", String.toList "18"]

/-- Example stat content built from the decomposition used by the field-22
    theorem; the comm field again contains a parenthesis and a space. -/
def statEx2 : List Char :=
  String.toList "7 (x y) z" ++ ')' :: ' ' ::
    fieldsJoin fieldsEx (String.toList "4242" ++ ' ' :: String.toList "0 0")

/-- Example world for the field-22 witness. -/
def wEx2 : World := ⟨1, 7, fun _ => statEx2, [], 58⟩

/-- Concrete stand-in for the real execve. -/
def realveEx : List Char → Option (List (List Char)) → Option (List (List Char)) → Nat :=
  fun _ _ _ => 7

/-- Concrete stand-in for the real execvpe. -/
def realvpeEx : List Char → Option (List (List Char)) → Option (List (List Char)) → Nat :=
  fun _ _ _ => 8

/-- A fresh empty session. -/
def lfEmpty : LogFile := ⟨[], []⟩

/-- Characters 48 + k for k < 10 have the expected byte value. -/
lemma digitChar_toNat (k : Nat) (hk : k < 10) : (Char.ofNat (48 + k)).toNat = 48 + k := by
  interval_cases k <;> decide

/-- Characters 48 + k for k < 10 pass safeIsDigit. -/
lemma digitChar_isDigit (k : Nat) (hk : k < 10) : safeIsDigit (Char.ofNat (48 + k)) = true := by
  interval_cases k <;> decide

/-- Digits are none of newline, space, closing parenthesis. -/
lemma digit_ne_special (c : Char) (h : safeIsDigit c = true) :
    c ≠ '\n' ∧ c ≠ ' ' ∧ c ≠ ')' := by
  refine ⟨?_, ?_, ?_⟩ <;> intro hc <;> subst hc <;> exact absurd h (by decide)

/-- One unfolding step of the uint64ToString loop. -/
lemma uint64ToStringAux_succ (fuel v : Nat) (acc : List Char) :
    uint64ToStringAux (fuel + 1) v acc =
      if v / 10 = 0 then Char.ofNat (48 + v % 10) :: acc
      else uint64ToStringAux fuel (v / 10) (Char.ofNat (48 + v % 10) :: acc) := rfl

/-- With enough fuel, the uint64ToString loop produces the reference digits. -/
lemma uint64ToStringAux_spec (fuel : Nat) :
    ∀ v acc, v < 10 ^ (fuel + 1) → uint64ToStringAux (fuel + 1) v acc = specDigits v ++ acc := by
  induction fuel with
  | zero =>
      intro v acc hv
      have h10 : v < 10 := by simpa using hv
      have hd : v / 10 = 0 := Nat.div_eq_of_lt h10
      rw [uint64ToStringAux_succ, if_pos hd, specDigits, dif_pos h10, Nat.mod_eq_of_lt h10]
      rfl
  | succ fuel ih =>
      intro v acc hv
      by_cases h0 : v / 10 = 0
      · have h10 : v < 10 := by omega
        rw [uint64ToStringAux_succ, if_pos h0, specDigits, dif_pos h10, Nat.mod_eq_of_lt h10]
        rfl
      · have h10 : ¬ v < 10 := by omega
        have hpow : (10 : Nat) ^ (fuel + 1 + 1) = 10 ^ (fuel + 1) * 10 := pow_succ 10 (fuel + 1)
        have hv10 : v / 10 < 10 ^ (fuel + 1) := by
          refine (Nat.div_lt_iff_lt_mul (by norm_num)).2 ?_
          rw [← hpow]
          exact hv
        rw [uint64ToStringAux_succ, if_neg h0, ih (v / 10) _ hv10]
        conv_rhs => rw [specDigits]
        rw [dif_neg h10]
        simp [List.append_assoc]

/-- Appending to an all-digit prefix composes the parsing loop. -/
lemma stringToUint64Go_append (xs ys : List Char) (acc : Nat)
    (h : ∀ c ∈ xs, safeIsDigit c = true) :
    stringToUint64Go (xs ++ ys) acc = stringToUint64Go ys (stringToUint64Go xs acc) := by
  induction xs generalizing acc with
  | nil => rfl
  | cons c rest ih =>
      have hc : safeIsDigit c = true := h c (List.mem_cons_self c rest)
      simp only [List.cons_append, stringToUint64Go, hc, if_true]
      exact ih _ (fun d hd => h d (List.mem_cons_of_mem c hd))

/-- The uint64 parsing loop is the mathematical digit-run value modulo 2 ^ 64. -/
lemma stringToUint64Go_mod (s : List Char) :
    ∀ a, stringToUint64Go s (a % U64) = digitRunValueGo s a % U64 := by
  induction s with
  | nil => intro a; rfl
  | cons c rest ih =>
      intro a
      by_cases hc : safeIsDigit c = true
      · have step : (a % U64 * 10 + (c.toNat - 48)) % U64 = (a * 10 + (c.toNat - 48)) % U64 :=
          ((Nat.mod_modEq a U64).mul_right 10).add_right (c.toNat - 48)
        simp only [stringToUint64Go, digitRunValueGo, hc, if_true]
        rw [step]
        exact ih (a * 10 + (c.toNat - 48))
      · simp only [stringToUint64Go, digitRunValueGo, hc]
        simp [hc]

/-- stringToUint64 returns the digit-run value reduced modulo 2 ^ 64. -/
lemma stringToUint64_eq_mod (s : List Char) : stringToUint64 s = digitRunValue s % U64 := by
  have h := stringToUint64Go_mod s 0
  simpa [stringToUint64, digitRunValue] using h

/-- Every character of the reference representation is a digit. -/
lemma specDigits_all_digits (v : Nat) : ∀ c ∈ specDigits v, safeIsDigit c = true := by
  induction v using Nat.strong_induction_on with
  | _ v ih =>
      rw [specDigits]
      by_cases h : v < 10
      · rw [dif_pos h]
        intro c hc
        simp at hc
        subst hc
        exact digitChar_isDigit v h
      · rw [dif_neg h]
        intro c hc
        rcases List.mem_append.1 hc with h1 | h2
        · exact ih (v / 10) (Nat.div_lt_self (by omega) (by omega)) c h1
        · simp at h2
          subst h2
          exact digitChar_isDigit (v % 10) (Nat.mod_lt _ (by omega))

/-- The reference representation is never empty. -/
lemma specDigits_ne_nil (v : Nat) : specDigits v ≠ [] := by
  rw [specDigits]
  by_cases h : v < 10
  · rw [dif_pos h]; simp
  · rw [dif_neg h]; simp

/-- Parsing the reference representation recovers the value modulo 2 ^ 64. -/
lemma stringToUint64Go_specDigits (v : Nat) :
    ∀ acc, stringToUint64Go (specDigits v) acc
      = (acc * 10 ^ (specDigits v).length + v) % U64 := by
  induction v using Nat.strong_induction_on with
  | _ v ih =>
      intro acc
      by_cases h : v < 10
      · rw [specDigits, dif_pos h]
        have hd := digitChar_isDigit v h
        have ht := digitChar_toNat v h
        simp only [stringToUint64Go, hd, if_true, ht, List.length_singleton, pow_one]
        have : 48 + v - 48 = v := by omega
        rw [this]
      · rw [specDigits, dif_neg h]
        have hm : v % 10 < 10 := Nat.mod_lt _ (by omega)
        have hd := digitChar_isDigit (v % 10) hm
        have ht := digitChar_toNat (v % 10) hm
        rw [stringToUint64Go_append _ _ _ (specDigits_all_digits (v / 10))]
        rw [ih (v / 10) (Nat.div_lt_self (by omega) (by omega)) acc]
        simp only [stringToUint64Go, hd, if_true, ht]
        have hsub : 48 + v % 10 - 48 = v % 10 := by omega
        rw [hsub]
        have step : ((acc * 10 ^ (specDigits (v / 10)).length + v / 10) % U64 * 10 + v % 10) % U64
            = ((acc * 10 ^ (specDigits (v / 10)).length + v / 10) * 10 + v % 10) % U64 :=
          ((Nat.mod_modEq _ U64).mul_right 10).add_right (v % 10)
        rw [step]
        have hdm : v / 10 * 10 + v % 10 = v := by omega
        have harith : (acc * 10 ^ (specDigits (v / 10)).length + v / 10) * 10 + v % 10
            = acc * 10 ^ ((specDigits (v / 10)).length + 1) + v := by
          calc (acc * 10 ^ (specDigits (v / 10)).length + v / 10) * 10 + v % 10
              = acc * (10 ^ (specDigits (v / 10)).length * 10) + (v / 10 * 10 + v % 10) := by ring
            _ = acc * 10 ^ ((specDigits (v / 10)).length + 1) + v := by rw [hdm, pow_succ]
        rw [harith]
        simp [List.length_append]

/-- A nonzero value's reference representation does not start with a zero. -/
lemma specDigits_head_ne_zero (v : Nat) (hv : v ≠ 0) : (specDigits v).head? ≠ some '0' := by
  induction v using Nat.strong_induction_on with
  | _ v ih =>
      rw [specDigits]
      by_cases h : v < 10
      · rw [dif_pos h]
        intro hc
        simp at hc
        have h2 : (Char.ofNat (48 + v)).toNat = ('0' : Char).toNat := congrArg Char.toNat hc
        rw [digitChar_toNat v h] at h2
        have h3 : ('0' : Char).toNat = 48 := by decide
        rw [h3] at h2
        omega
      · rw [dif_neg h]
        have hne := specDigits_ne_nil (v / 10)
        rcases hx : specDigits (v / 10) with _ | ⟨c, cs⟩
        · exact absurd hx hne
        · have hh := ih (v / 10) (Nat.div_lt_self (by omega) (by omega)) (by omega)
          rw [hx] at hh
          simp only [List.cons_append, List.head?_cons]
          simpa using hh

/-- For uint64 values the fuel suffices: uint64ToString is the reference digits. -/
lemma uint64ToString_eq_specDigits (n : Nat) (h : n < U64) : uint64ToString n = specDigits n := by
  have hU : U64 < 10 ^ 31 := by norm_num [U64]
  have hlt : n < 10 ^ 31 := by omega
  have hh := uint64ToStringAux_spec 30 n [] hlt
  simpa [uint64ToString] using hh

/-- Claim C7: for every n below 2 ^ 64, stringToUint64 inverts uint64ToString
    (decimal round trip), and uint64ToString writes the decimal representation
    with no leading zeros except for the value 0 itself. -/
theorem uint64_decimal_roundTrip (n : Nat) (h : n < U64) :
    stringToUint64 (uint64ToString n) = n
    ∧ uint64ToString 0 = ['0']
    ∧ (n ≠ 0 → (uint64ToString n).head? ≠ some '0') := by
  refine ⟨?_, by decide, ?_⟩
  · rw [uint64ToString_eq_specDigits n h]
    have hh := stringToUint64Go_specDigits n 0
    rw [stringToUint64, hh]
    simp [Nat.mod_eq_of_lt h]
  · intro hn
    rw [uint64ToString_eq_specDigits n h]
    exact specDigits_head_ne_zero n hn

/-- Witness for C7 at n = 314159. -/
theorem uint64_decimal_roundTrip_wit :
    314159 < U64
    ∧ (stringToUint64 (uint64ToString 314159) = 314159
       ∧ uint64ToString 0 = ['0']
       ∧ (314159 ≠ 0 → (uint64ToString 314159).head? ≠ some '0')) :=
  ⟨by norm_num [U64], uint64_decimal_roundTrip 314159 (by norm_num [U64])⟩

/-- Claim C10: stringToUint64 returns 0 on the empty string and on any string
    whose first character is not an ASCII digit, and in general returns the
    leading digit run's value reduced modulo 2 ^ 64 (silent wraparound). -/
theorem stringToUint64_partial (s : List Char) (c : Char) (rest : List Char)
    (h : safeIsDigit c = false) :
    stringToUint64 [] = 0
    ∧ stringToUint64 (c :: rest) = 0
    ∧ stringToUint64 s = digitRunValue s % U64 := by
  refine ⟨rfl, ?_, stringToUint64_eq_mod s⟩
  simp [stringToUint64, stringToUint64Go, h]

/-- Witness for C10: a non-digit head, and a 20-digit run exceeding 2 ^ 64. -/
theorem stringToUint64_partial_wit :
    safeIsDigit 'x' = false
    ∧ (stringToUint64 [] = 0
       ∧ stringToUint64 ('x' :: []) = 0
       ∧ stringToUint64 (String.toList "18446744073709551617")
           = digitRunValue (String.toList "18446744073709551617") % U64) :=
  ⟨by decide, stringToUint64_partial (String.toList "18446744073709551617") 'x' [] (by decide)⟩

/-- writeChar appends exactly one byte to the session's byte stream. -/
lemma emitted_writeChar (lf : LogFile) (c : Char) : emitted (writeChar lf c) = emitted lf ++ [c] := by
  by_cases h : lf.buf.length = logBufCapacity
  · simp [writeChar, h, flushLogFile, emitted, List.append_assoc]
  · simp [writeChar, h, emitted, List.append_assoc]

/-- writeString appends exactly its text to the session's byte stream. -/
lemma emitted_writeString (s : List Char) :
    ∀ lf, emitted (writeString lf s) = emitted lf ++ s := by
  induction s with
  | nil => intro lf; simp [writeString]
  | cons c rest ih =>
      intro lf
      have h1 : writeString lf (c :: rest) = writeString (writeChar lf c) rest := rfl
      rw [h1, ih (writeChar lf c), emitted_writeChar]
      simp [List.append_assoc]

/-- The escaping loop body appends escapeChar of its byte. -/
lemma emitted_escWriteChar (lf : LogFile) (c : Char) :
    emitted (escWriteChar lf c) = emitted lf ++ escapeChar c := by
  by_cases h : (c = '\\' || c = '"') = true
  · simp [escWriteChar, escapeChar, h, emitted_writeChar, List.append_assoc]
  · simp [escWriteChar, escapeChar, h, emitted_writeChar]

/-- The escaping loop appends the escaped body. -/
lemma emitted_escFold (t : List Char) :
    ∀ lf, emitted (t.foldl escWriteChar lf) = emitted lf ++ escapeBody t := by
  induction t with
  | nil => intro lf; simp [escapeBody]
  | cons c rest ih =>
      intro lf
      have h1 : (c :: rest).foldl escWriteChar lf = rest.foldl escWriteChar (escWriteChar lf c) := rfl
      rw [h1, ih, emitted_escWriteChar]
      simp [escapeBody, List.append_assoc]

/-- writeEscapedString appends exactly escapeOut of its value. -/
lemma emitted_writeEscapedString (lf : LogFile) (t : List Char) :
    emitted (writeEscapedString lf t) = emitted lf ++ escapeOut t := by
  by_cases h : needsQuotesB t = true
  · simp [writeEscapedString, escapeOut, h, emitted_writeChar, emitted_escFold, List.append_assoc]
  · simp [writeEscapedString, escapeOut, h, emitted_escFold]

/-- Closing the session lands exactly the emitted bytes in the file. -/
lemma closeLogFile_eq_emitted (lf : LogFile) : closeLogFile lf = emitted lf := rfl

/-- The argument loop appends argsBody. -/
lemma emitted_writeArgsLoop (as : List (List Char)) :
    ∀ lf first, emitted (writeArgsLoop lf as first) = emitted lf ++ argsBody as first := by
  induction as with
  | nil => intro lf first; simp [writeArgsLoop, argsBody]
  | cons a rest ih =>
      intro lf first
      cases first
      · have h1 : writeArgsLoop lf (a :: rest) false
            = writeArgsLoop (writeEscapedString (writeChar lf ' ') a) rest false := rfl
        rw [h1, ih, emitted_writeEscapedString, emitted_writeChar]
        simp [argsBody, List.append_assoc]
      · have h1 : writeArgsLoop lf (a :: rest) true
            = writeArgsLoop (writeEscapedString lf a) rest false := rfl
        rw [h1, ih, emitted_writeEscapedString]
        simp [argsBody, List.append_assoc]

/-- writeArgs appends the argument line and its newline. -/
lemma emitted_writeArgs (lf : LogFile) (argv : Option (List (List Char))) :
    emitted (writeArgs lf argv) = emitted lf ++ argLine argv ++ ['\n'] := by
  cases argv with
  | none =>
      simp [writeArgs, libbtrace_c_NULL_constant, argLine, emitted_writeChar]
  | some as =>
      have h1 : writeArgs lf (some as) = writeChar (writeArgsLoop lf as true) '\n' := by
        simp [writeArgs, libbtrace_c_NULL_constant]
      rw [h1, emitted_writeChar, emitted_writeArgsLoop]
      simp [argLine, List.append_assoc]

/-- The first-occurrence search succeeds exactly on members. -/
lemma safeStrChrSuffix_isSome_iff (c : Char) (l : List Char) :
    (safeStrChrSuffix c l).isSome = true ↔ c ∈ l := by
  induction l with
  | nil => simp [safeStrChrSuffix]
  | cons x xs ih =>
      by_cases h : x = c
      · subst h; simp [safeStrChrSuffix]
      · simp only [safeStrChrSuffix, if_neg h, ih, List.mem_cons]
        constructor
        · exact Or.inr
        · rintro (hc | hc)
          · exact absurd hc.symm h
          · exact hc

/-- The quoting condition holds exactly when the value has a space or newline. -/
lemma needsQuotesB_iff (t : List Char) : needsQuotesB t = true ↔ (' ' ∈ t ∨ '\n' ∈ t) := by
  rw [needsQuotesB, Bool.or_eq_true, safeStrChrSuffix_isSome_iff, safeStrChrSuffix_isSome_iff]

/-- escapeChar never produces the empty list. -/
lemma escapeChar_ne_nil (c : Char) : escapeChar c ≠ [] := by
  rw [escapeChar]; split <;> simp

/-- escapeBody is empty only for the empty value. -/
lemma escapeBody_eq_nil (t : List Char) : escapeBody t = [] ↔ t = [] := by
  cases t with
  | nil => simp [escapeBody]
  | cons c rest =>
      have h1 : escapeBody (c :: rest) = escapeChar c ++ escapeBody rest := rfl
      rw [h1]
      simp [escapeChar_ne_nil c]

/-- An unquoted escaped body never starts with a double quote. -/
lemma escapeBody_head_ne_quote (t : List Char) : (escapeBody t).head? ≠ some '"' := by
  cases t with
  | nil => simp [escapeBody]
  | cons c rest =>
      have h1 : escapeBody (c :: rest) = escapeChar c ++ escapeBody rest := rfl
      rw [h1, escapeChar]
      by_cases h : (c = '\\' || c = '"') = true
      · rw [if_pos h]; simp
      · rw [if_neg h]
        simp only [Bool.or_eq_true, decide_eq_true_eq] at h
        push_neg at h
        simp [h.2]

/-- Unescaping inverts the escaping of a body. -/
lemma unescape_escapeBody (t : List Char) : unescape (escapeBody t) = t := by
  induction t with
  | nil => rfl
  | cons c rest ih =>
      have h1 : escapeBody (c :: rest) = escapeChar c ++ escapeBody rest := rfl
      rw [h1, escapeChar]
      by_cases hc : (c = '\\' || c = '"') = true
      · rw [if_pos hc]
        show unescape ('\\' :: c :: escapeBody rest) = c :: rest
        have h2 : unescape ('\\' :: c :: escapeBody rest) = c :: unescape (escapeBody rest) := by
          simp [unescape, hc]
        rw [h2, ih]
      · rw [if_neg hc]
        show unescape (c :: escapeBody rest) = c :: rest
        simp only [Bool.or_eq_true, decide_eq_true_eq] at hc
        push_neg at hc
        rcases hb : escapeBody rest with _ | ⟨d, ds⟩
        · have hr : rest = [] := (escapeBody_eq_nil rest).1 hb
          subst hr
          rfl
        · have h2 : unescape (c :: d :: ds) = c :: unescape (d :: ds) := by
            simp [unescape, hc.1]
          rw [h2, ← hb, ih]

/-- Decoding inverts escapeOut. -/
lemma decode_escapeOut (x : List Char) : decodeEscaped (escapeOut x) = x := by
  by_cases hq : needsQuotesB x = true
  · have hlast : ('"' :: escapeBody x ++ ['"']).getLast? = some '"' := by
      have h1 : ('"' :: escapeBody x ++ ['"']) = ('"' :: escapeBody x) ++ ['"'] := by simp
      rw [h1, List.getLast?_concat]
    have hcond : 2 ≤ ('"' :: escapeBody x ++ ['"']).length
        ∧ ('"' :: escapeBody x ++ ['"']).head? = some '"'
        ∧ ('"' :: escapeBody x ++ ['"']).getLast? = some '"' := by
      refine ⟨by simp, by simp, hlast⟩
    rw [escapeOut, if_pos hq, decodeEscaped, if_pos hcond]
    have hd : (('"' :: escapeBody x ++ ['"']).drop 1) = escapeBody x ++ ['"'] := rfl
    rw [hd, List.dropLast_concat]
    exact unescape_escapeBody x
  · have hncond : ¬ (2 ≤ (escapeBody x).length
        ∧ (escapeBody x).head? = some '"'
        ∧ (escapeBody x).getLast? = some '"') := by
      rintro ⟨hlen, hhead, hlast⟩
      exact escapeBody_head_ne_quote x hhead
    rw [escapeOut, if_neg hq, decodeEscaped, if_neg hncond]
    exact unescape_escapeBody x

/-- Claim C4: writeEscapedString appends escapeOut of its value, the decoding
    procedure of the specification (strip enclosing quotes if present, undo the
    backslash escapes) recovers the original string, and the encoder quotes
    exactly the values containing a space or a newline. -/
theorem writeEscapedString_roundTrip (lf : LogFile) (x : List Char) :
    emitted (writeEscapedString lf x) = emitted lf ++ escapeOut x
    ∧ decodeEscaped (escapeOut x) = x
    ∧ (needsQuotesB x = true ↔ (' ' ∈ x ∨ '\n' ∈ x)) :=
  ⟨emitted_writeEscapedString lf x, decode_escapeOut x, needsQuotesB_iff x⟩

/-- The tail of an argument line: one space before each further argument. -/
lemma argsBody_false_eq (as : List (List Char)) :
    argsBody as false = (as.map fun b => ' ' :: escapeOut b).flatten := by
  induction as with
  | nil => rfl
  | cons b tl ih =>
      have h1 : argsBody (b :: tl) false = ' ' :: (escapeOut b ++ argsBody tl false) := by
        simp [argsBody]
      rw [h1, ih]
      simp

/-- Claim C8: a NULL argv (compared against the hidden constant, so it is not
    dereferenced) and an argv whose first element is NULL both produce an
    argument line holding only the newline; a nonempty vector yields the
    escaped arguments separated by exactly one space, with no leading or
    trailing space. -/
theorem writeArgs_line (lf : LogFile) (a : List Char) (as : List (List Char)) :
    emitted (writeArgs lf none) = emitted lf ++ ['\n']
    ∧ emitted (writeArgs lf (some [])) = emitted lf ++ ['\n']
    ∧ emitted (writeArgs lf (some (a :: as)))
        = emitted lf ++ escapeOut a ++ (as.map fun b => ' ' :: escapeOut b).flatten ++ ['\n'] := by
  refine ⟨?_, ?_, ?_⟩
  · rw [emitted_writeArgs]; simp [argLine]
  · rw [emitted_writeArgs]; simp [argLine, argsBody]
  · rw [emitted_writeArgs]
    have h1 : argLine (some (a :: as)) = escapeOut a ++ argsBody as false := by
      simp [argLine, argsBody]
    rw [h1, argsBody_false_eq]
    simp [List.append_assoc]

/-- writeChar on a full buffer flushes first. -/
lemma writeChar_full (lf : LogFile) (c : Char) (h : lf.buf.length = logBufCapacity) :
    writeChar lf c = ⟨lf.written ++ lf.buf, [c]⟩ := by
  simp [writeChar, h, flushLogFile]

/-- writeChar keeps the staging buffer within capacity. -/
lemma writeChar_buflen (lf : LogFile) (c : Char) (h : lf.buf.length ≤ logBufCapacity) :
    (writeChar lf c).buf.length ≤ logBufCapacity := by
  by_cases hf : lf.buf.length = logBufCapacity
  · rw [writeChar_full lf c hf]
    simp [logBufCapacity]
  · simp only [writeChar, hf, if_false]
    simp only [List.length_append, List.length_singleton]
    omega

/-- writeString keeps the staging buffer within capacity. -/
lemma writeString_buflen (s : List Char) :
    ∀ lf, lf.buf.length ≤ logBufCapacity → (writeString lf s).buf.length ≤ logBufCapacity := by
  induction s with
  | nil => intro lf h; exact h
  | cons c rest ih =>
      intro lf h
      have h1 : writeString lf (c :: rest) = writeString (writeChar lf c) rest := rfl
      rw [h1]
      exact ih _ (writeChar_buflen lf c h)

/-- The escaping loop body keeps the staging buffer within capacity. -/
lemma escWriteChar_buflen (lf : LogFile) (c : Char) (h : lf.buf.length ≤ logBufCapacity) :
    (escWriteChar lf c).buf.length ≤ logBufCapacity := by
  rw [escWriteChar]
  split
  · exact writeChar_buflen _ _ (writeChar_buflen _ _ h)
  · exact writeChar_buflen _ _ h

/-- The escaping loop keeps the staging buffer within capacity. -/
lemma escFold_buflen (t : List Char) :
    ∀ lf, lf.buf.length ≤ logBufCapacity →
      (t.foldl escWriteChar lf).buf.length ≤ logBufCapacity := by
  induction t with
  | nil => intro lf h; exact h
  | cons c rest ih =>
      intro lf h
      exact ih _ (escWriteChar_buflen lf c h)

/-- writeEscapedString keeps the staging buffer within capacity. -/
lemma writeEscapedString_buflen (lf : LogFile) (t : List Char)
    (h : lf.buf.length ≤ logBufCapacity) :
    (writeEscapedString lf t).buf.length ≤ logBufCapacity := by
  by_cases hq : needsQuotesB t = true
  · have hgoal : writeEscapedString lf t
        = writeChar (t.foldl escWriteChar (writeChar lf '"')) '"' := by
      simp [writeEscapedString, hq]
    rw [hgoal]
    exact writeChar_buflen _ _ (escFold_buflen t _ (writeChar_buflen _ _ h))
  · have hgoal : writeEscapedString lf t = t.foldl escWriteChar lf := by
      simp [writeEscapedString, hq]
    rw [hgoal]
    exact escFold_buflen t _ h

/-- The argument loop keeps the staging buffer within capacity. -/
lemma writeArgsLoop_buflen (as : List (List Char)) :
    ∀ lf first, lf.buf.length ≤ logBufCapacity →
      (writeArgsLoop lf as first).buf.length ≤ logBufCapacity := by
  induction as with
  | nil => intro lf first h; exact h
  | cons a rest ih =>
      intro lf first h
      cases first
      · have h1 : writeArgsLoop lf (a :: rest) false
            = writeArgsLoop (writeEscapedString (writeChar lf ' ') a) rest false := rfl
        rw [h1]
        exact ih _ _ (writeEscapedString_buflen _ _ (writeChar_buflen _ _ h))
      · have h1 : writeArgsLoop lf (a :: rest) true
            = writeArgsLoop (writeEscapedString lf a) rest false := rfl
        rw [h1]
        exact ih _ _ (writeEscapedString_buflen _ _ h)

/-- writeArgs keeps the staging buffer within capacity. -/
lemma writeArgs_buflen (lf : LogFile) (argv : Option (List (List Char)))
    (h : lf.buf.length ≤ logBufCapacity) :
    (writeArgs lf argv).buf.length ≤ logBufCapacity := by
  rw [writeArgs]
  split
  · exact writeChar_buflen _ _ h
  · exact writeChar_buflen _ _ (writeArgsLoop_buflen _ _ _ h)

/-- Any session operation keeps the staging buffer within capacity. -/
lemma applyOp_buflen (lf : LogFile) (op : LogOp) (h : lf.buf.length ≤ logBufCapacity) :
    (applyOp lf op).buf.length ≤ logBufCapacity := by
  cases op with
  | wchar c => exact writeChar_buflen lf c h
  | wstr s => exact writeString_buflen s lf h
  | wesc s => exact writeEscapedString_buflen lf s h
  | wargs a => exact writeArgs_buflen lf a h
  | flush => simp [applyOp, flushLogFile, logBufCapacity]

/-- Any sequence of session operations keeps the buffer within capacity. -/
lemma foldl_ops_buflen (ops : List LogOp) :
    ∀ lf, lf.buf.length ≤ logBufCapacity →
      (ops.foldl applyOp lf).buf.length ≤ logBufCapacity := by
  induction ops with
  | nil => intro lf h; exact h
  | cons op rest ih =>
      intro lf h
      exact ih _ (applyOp_buflen lf op h)

/-- Claim C9: writeChar flushes the staging buffer before appending exactly
    when the fill count equals the 1024-byte capacity, flushLogFile writes the
    whole buffer and resets the fill count to zero, and between any two session
    operations the fill count never exceeds the capacity. -/
theorem logFile_buffer_invariant (lf : LogFile) (c : Char) (ops : List LogOp)
    (h : lf.buf.length ≤ logBufCapacity) :
    (lf.buf.length = logBufCapacity → writeChar lf c = ⟨lf.written ++ lf.buf, [c]⟩)
    ∧ flushLogFile lf = ⟨lf.written ++ lf.buf, []⟩
    ∧ (ops.foldl applyOp lf).buf.length ≤ logBufCapacity :=
  ⟨fun hf => writeChar_full lf c hf, rfl, foldl_ops_buflen ops lf h⟩

/-- Witness for C9 on a fresh session and a short operation sequence. -/
theorem logFile_buffer_invariant_wit :
    lfEmpty.buf.length ≤ logBufCapacity
    ∧ ((lfEmpty.buf.length = logBufCapacity →
          writeChar lfEmpty 'a' = ⟨lfEmpty.written ++ lfEmpty.buf, ['a']⟩)
       ∧ flushLogFile lfEmpty = ⟨lfEmpty.written ++ lfEmpty.buf, []⟩
       ∧ (([LogOp.wchar 'x', LogOp.flush]).foldl applyOp lfEmpty).buf.length ≤ logBufCapacity) :=
  ⟨by decide, logFile_buffer_invariant lfEmpty 'a' [LogOp.wchar 'x', LogOp.flush] (by decide)⟩

/-- The last-occurrence search fails on occurrence-free strings. -/
lemma safeStrRChrSuffix_eq_none (c : Char) (l : List Char) (h : c ∉ l) :
    safeStrRChrSuffix c l = none := by
  induction l with
  | nil => rfl
  | cons x xs ih =>
      have hx : x ≠ c := fun he => h (he ▸ List.mem_cons_self x xs)
      have hxs : c ∉ xs := fun hm => h (List.mem_cons_of_mem x hm)
      simp [safeStrRChrSuffix, ih hxs, hx]

/-- With no occurrence of c after the marked one, safeStrRChr lands on it. -/
lemma safeStrRChrSuffix_append (c : Char) (xs ys : List Char) (h : c ∉ ys) :
    safeStrRChrSuffix c (xs ++ c :: ys) = some (c :: ys) := by
  induction xs with
  | nil =>
      simp [safeStrRChrSuffix, safeStrRChrSuffix_eq_none c ys h]
  | cons x tl ih =>
      simp [safeStrRChrSuffix, ih]

/-- First-occurrence search across an occurrence-free prefix. -/
lemma safeStrChrSuffix_append (c : Char) (xs ys : List Char) (h : c ∉ xs) :
    safeStrChrSuffix c (xs ++ c :: ys) = some (c :: ys) := by
  induction xs with
  | nil => simp [safeStrChrSuffix]
  | cons x tl ih =>
      have hx : x ≠ c := fun he => h (he ▸ List.mem_cons_self x tl)
      have htl : c ∉ tl := fun hm => h (List.mem_cons_of_mem x hm)
      simp [safeStrChrSuffix, hx, ih htl]

/-- Skipping as many space-delimited fields as there are in the joined form
    lands on the remainder. -/
lemma skipFields_join (fields : List (List Char)) (rest : List Char)
    (h : ∀ f ∈ fields, ' ' ∉ f) :
    skipFields fields.length (fieldsJoin fields rest) = some rest := by
  induction fields with
  | nil => rfl
  | cons f tl ih =>
      have hf : ' ' ∉ f := h f (List.mem_cons_self f tl)
      have htl : ∀ g ∈ tl, ' ' ∉ g := fun g hg => h g (List.mem_cons_of_mem f hg)
      have hj : fieldsJoin (f :: tl) rest = f ++ ' ' :: fieldsJoin tl rest := rfl
      rw [List.length_cons, hj]
      simp only [skipFields, safeStrChrSuffix_append ' ' f _ hf]
      simpa using ih htl

/-- A character different from the separator and absent from every field and
    from the remainder is absent from the joined form. -/
lemma not_mem_fieldsJoin (c : Char) (fields : List (List Char)) (rest : List Char)
    (hc : c ≠ ' ') (h : ∀ f ∈ fields, c ∉ f) (hr : c ∉ rest) :
    c ∉ fieldsJoin fields rest := by
  induction fields with
  | nil => exact hr
  | cons f tl ih =>
      have hf : c ∉ f := h f (List.mem_cons_self f tl)
      have htl : ∀ g ∈ tl, c ∉ g := fun g hg => h g (List.mem_cons_of_mem f hg)
      have hj : fieldsJoin (f :: tl) rest = f ++ ' ' :: fieldsJoin tl rest := rfl
      rw [hj]
      intro hmem
      rcases List.mem_append.1 hmem with h1 | h2
      · exact hf h1
      · rcases List.mem_cons.1 h2 with h3 | h4
        · exact hc h3
        · exact ih htl h4

/-- The stat parser on a decomposed stat line: it finds the rightmost closing
    parenthesis, skips 19 fields, and parses the digit run of field 22. -/
lemma statStartTick_spec (pre : List Char) (fields : List (List Char)) (f22 tail : List Char)
    (hflen : fields.length = 19)
    (hfields : ∀ f ∈ fields, ' ' ∉ f ∧ ')' ∉ f)
    (hf22 : ∀ c ∈ f22, safeIsDigit c = true)
    (htail : ')' ∉ tail) :
    statStartTick (pre ++ ')' :: ' ' :: fieldsJoin fields (f22 ++ ' ' :: tail))
      = some (digitRunValue f22 % U64) := by
  have hf22sp : ' ' ∉ f22 := fun hm => (digit_ne_special ' ' (hf22 ' ' hm)).2.1 rfl
  have hf22par : ')' ∉ f22 := fun hm => (digit_ne_special ')' (hf22 ')' hm)).2.2 rfl
  have hrest : ')' ∉ ' ' :: fieldsJoin fields (f22 ++ ' ' :: tail) := by
    intro hm
    rcases List.mem_cons.1 hm with h1 | h2
    · exact absurd h1 (by decide)
    · refine not_mem_fieldsJoin ')' fields _ (by decide) (fun f hf => (hfields f hf).2) ?_ h2
      intro hm2
      rcases List.mem_append.1 hm2 with h3 | h4
      · exact hf22par h3
      · rcases List.mem_cons.1 h4 with h5 | h6
        · exact absurd h5 (by decide)
        · exact htail h6
  have hskip := skipFields_join fields (f22 ++ ' ' :: tail) (fun f hf => (hfields f hf).1)
  rw [hflen] at hskip
  have hparse : stringToUint64 (f22 ++ ' ' :: tail) = digitRunValue f22 % U64 := by
    rw [stringToUint64, stringToUint64Go_append f22 (' ' :: tail) 0 hf22]
    have hsp : safeIsDigit ' ' = false := by decide
    simp only [stringToUint64Go, hsp]
    have hm := stringToUint64Go_mod f22 0
    simpa [digitRunValue] using hm
  have hdrop : ((')' :: ' ' :: fieldsJoin fields (f22 ++ ' ' :: tail)).drop 2)
      = fieldsJoin fields (f22 ++ ' ' :: tail) := rfl
  simp only [statStartTick, safeStrRChrSuffix_append ')' pre _ hrest, hdrop, hskip,
             safeStrChrSuffix_append ' ' f22 tail hf22sp, hparse]

/-- Claim C2: for stat contents fitting the 1023-byte read window, writePid
    locates the rightmost closing parenthesis, skips the parenthesis-space
    pair, advances over 19 spaces to field 22, parses the decimal there, and
    emits that value plus the cached boot-tick constant (uint64 addition) as a
    decimal line after the pid line; the comm prefix may contain parentheses
    and spaces. -/
theorem writePid_field22 (w : World) (lf : LogFile) (pid : Nat)
    (pre : List Char) (fields : List (List Char)) (f22 tail : List Char)
    (hcontent : w.procStat pid = pre ++ ')' :: ' ' :: fieldsJoin fields (f22 ++ ' ' :: tail))
    (hlen : (w.procStat pid).length ≤ 1023)
    (hflen : fields.length = 19)
    (hfields : ∀ f ∈ fields, ' ' ∉ f ∧ ')' ∉ f)
    (hf22 : ∀ c ∈ f22, safeIsDigit c = true)
    (htail : ')' ∉ tail) :
    (writePid w lf pid).map emitted
      = some (emitted lf ++ uint64ToString pid ++ ['\n']
          ++ uint64ToString ((w.bootTicks + digitRunValue f22 % U64) % U64) ++ ['\n']) := by
  have htake : (w.procStat pid).take 1023 = w.procStat pid :=
    List.take_of_length_le hlen
  rw [writePid, htake, hcontent,
      statStartTick_spec pre fields f22 tail hflen hfields hf22 htail]
  simp [emitted_writeChar, emitted_writeString, List.append_assoc]

/-- Witness for C2 on a stat line whose comm field contains a parenthesis and
    a space (field 22 is 4242, boot ticks 58). -/
theorem writePid_field22_wit :
    wEx2.procStat 7 = String.toList "7 (x y) z" ++ ')' :: ' ' ::
        fieldsJoin fieldsEx (String.toList "4242" ++ ' ' :: String.toList "0 0")
    ∧ (wEx2.procStat 7).length ≤ 1023
    ∧ fieldsEx.length = 19
    ∧ (∀ f ∈ fieldsEx, ' ' ∉ f ∧ ')' ∉ f)
    ∧ (∀ c ∈ String.toList "4242", safeIsDigit c = true)
    ∧ ')' ∉ String.toList "0 0"
    ∧ (writePid wEx2 lfEmpty 7).map emitted
        = some (emitted lfEmpty ++ uint64ToString 7 ++ ['\n']
            ++ uint64ToString ((wEx2.bootTicks
                + digitRunValue (String.toList "4242") % U64) % U64) ++ ['\n']) :=
  ⟨rfl, by decide, by decide, by decide, by decide, by decide,
   writePid_field22 wEx2 lfEmpty 7 (String.toList "7 (x y) z") fieldsEx
     (String.toList "4242") (String.toList "0 0") rfl (by decide) (by decide) (by decide)
     (by decide) (by decide)⟩

/-- A fitting target succeeds at the current size. -/
lemma symLinkLoop_succ (t : List Char) (lf : LogFile) (fuel b : Nat)
    (hb : b < 1048576) (hfit : t.length < b) :
    symLinkLoop t lf b (fuel + 1) = some (writeChar (writeEscapedString lf t) '\n') := by
  have hmin : min t.length b = t.length := min_eq_left (le_of_lt hfit)
  simp [symLinkLoop, hb, attemptWriteSymLinkTarget, hmin, hfit]

/-- A non-fitting target doubles the buffer. -/
lemma symLinkLoop_step (t : List Char) (lf : LogFile) (fuel b : Nat)
    (hb : b < 1048576) (hfit : ¬ t.length < b) :
    symLinkLoop t lf b (fuel + 1) = symLinkLoop t lf (b * 2) fuel := by
  have hmin : ¬ min t.length b < b := by
    have hm : min t.length b = b := min_eq_right (by omega)
    omega
  simp [symLinkLoop, hb, attemptWriteSymLinkTarget, hmin]

/-- Once the size reaches 1 MiB the loop gives up (fatal abort). -/
lemma symLinkLoop_stop (t : List Char) (lf : LogFile) (fuel b : Nat)
    (hb : ¬ b < 1048576) :
    symLinkLoop t lf b (fuel + 1) = none := by
  simp [symLinkLoop, hb]

/-- Targets of at least 2 ^ 19 bytes abort: every size the loop can try from a
    power of two at most 2 ^ 20 is itself at most 2 ^ 19, too small. -/
lemma symLinkLoop_none_big (t : List Char) (lf : LogFile) (hbig : 524288 ≤ t.length) :
    ∀ fuel j, j ≤ 20 → symLinkLoop t lf (2 ^ j) fuel = none := by
  intro fuel
  induction fuel with
  | zero => intro j hj; rfl
  | succ fuel ih =>
      intro j hj
      by_cases hb : (2 : Nat) ^ j < 1048576
      · have hj19 : j ≤ 19 := by
          by_contra hcon
          have hj20 : j = 20 := by omega
          subst hj20
          norm_num at hb
        have hle : (2 : Nat) ^ j ≤ 2 ^ 19 := Nat.pow_le_pow_right (by norm_num) hj19
        have h19v : (2 : Nat) ^ 19 = 524288 := by norm_num
        have hfit : ¬ t.length < 2 ^ j := by omega
        rw [symLinkLoop_step t lf fuel _ hb hfit]
        have hdbl : (2 : Nat) ^ j * 2 = 2 ^ (j + 1) := (pow_succ 2 j).symm
        rw [hdbl]
        by_cases hj20 : j + 1 ≤ 20
        · exact ih (j + 1) hj20
        · exfalso
          have hje : j = 20 := by omega
          subst hje
          norm_num at hb
      · exact symLinkLoop_stop t lf fuel _ hb

/-- Targets shorter than 2 ^ 19 bytes succeed before the fuel runs out. -/
lemma symLinkLoop_some_small (t : List Char) (lf : LogFile) (ht : t.length < 524288) :
    ∀ fuel j, 8 ≤ j → j ≤ 19 → 20 - j ≤ fuel →
      symLinkLoop t lf (2 ^ j) fuel = some (writeChar (writeEscapedString lf t) '\n') := by
  intro fuel
  induction fuel with
  | zero => intro j h8 h19 hf; omega
  | succ fuel ih =>
      intro j h8 h19 hf
      have hle : (2 : Nat) ^ j ≤ 2 ^ 19 := Nat.pow_le_pow_right (by norm_num) h19
      have h19v : (2 : Nat) ^ 19 = 524288 := by norm_num
      have hb : (2 : Nat) ^ j < 1048576 := by omega
      by_cases hfit : t.length < 2 ^ j
      · exact symLinkLoop_succ t lf fuel _ hb hfit
      · have hj18 : j ≤ 18 := by
          by_contra hcon
          have hje : j = 19 := by omega
          subst hje
          omega
        rw [symLinkLoop_step t lf fuel _ hb hfit]
        have hdbl : (2 : Nat) ^ j * 2 = 2 ^ (j + 1) := (pow_succ 2 j).symm
        rw [hdbl]
        exact ih (j + 1) (by omega) (by omega) (by omega)

/-- writeSymLinkTarget succeeds exactly on targets shorter than 2 ^ 19 bytes,
    writing the escaped target and a newline; longer targets abort. -/
lemma writeSymLinkTarget_eq (t : List Char) (lf : LogFile) :
    writeSymLinkTarget t lf =
      if t.length < 524288 then some (writeChar (writeEscapedString lf t) '\n')
      else none := by
  rw [writeSymLinkTarget, show (256 : Nat) = 2 ^ 8 from by norm_num]
  by_cases h : t.length < 524288
  · rw [if_pos h]
    exact symLinkLoop_some_small t lf h 13 8 (by norm_num) (by norm_num) (by norm_num)
  · rw [if_neg h]
    exact symLinkLoop_none_big t lf (by omega) 13 8 (by norm_num)

/-- Claim C3 (amended): the cwd symlink is read with a buffer starting at 256
    bytes that doubles while below 1 MiB, aborting when doubling reaches 1 MiB
    without success.  Because the bound is checked before the attempt, the
    largest buffer tried is 512 KiB: the read succeeds and writes the escaped
    target exactly when the target is shorter than 2 ^ 19 bytes, and aborts
    otherwise - so a target of exactly 1 MiB - 1 bytes aborts rather than
    succeeding. -/
theorem writeSymLinkTarget_spec (t : List Char) (lf : LogFile) :
    writeSymLinkTarget t lf =
      if t.length < 524288 then some (writeChar (writeEscapedString lf t) '\n')
      else none :=
  writeSymLinkTarget_eq t lf

/-- Counterexample for C3 as stated: a symlink target of exactly
    1 MiB - 1 bytes does not succeed; writeSymLinkTarget aborts on it. -/
theorem writeSymLinkTarget_megabyte_cex :
    writeSymLinkTarget (List.replicate 1048575 'x') lfEmpty = none := by
  have hcond : ¬ ((List.replicate 1048575 'x').length < 524288) := by
    rw [List.length_replicate]
    decide
  rw [writeSymLinkTarget_eq, if_neg hcond]

/-- No byte produced by the decimal-conversion loop is a newline. -/
lemma nl_notMem_uint64ToStringAux (fuel : Nat) :
    ∀ v acc, '\n' ∉ acc → '\n' ∉ uint64ToStringAux fuel v acc := by
  induction fuel with
  | zero => intro v acc h; exact h
  | succ fuel ih =>
      intro v acc h
      have hch : Char.ofNat (48 + v % 10) ≠ '\n' := by
        intro he
        have h2 := congrArg Char.toNat he
        rw [digitChar_toNat (v % 10) (Nat.mod_lt _ (by omega))] at h2
        have h3 : ('\n' : Char).toNat = 10 := by decide
        rw [h3] at h2
        omega
      have hacc1 : '\n' ∉ Char.ofNat (48 + v % 10) :: acc := by
        intro hm
        rcases List.mem_cons.1 hm with h1 | h2
        · exact hch h1.symm
        · exact h h2
      rw [uint64ToStringAux_succ]
      by_cases h0 : v / 10 = 0
      · rw [if_pos h0]; exact hacc1
      · rw [if_neg h0]; exact ih (v / 10) _ hacc1

/-- No byte of a decimal pid or tick line body is a newline. -/
lemma nl_notMem_uint64ToString (v : Nat) : '\n' ∉ uint64ToString v :=
  nl_notMem_uint64ToStringAux 31 v [] (by simp)

/-- Characters of an escaped body are backslashes or original bytes. -/
lemma mem_escapeBody (c : Char) (t : List Char) (h : c ∈ escapeBody t) : c = '\\' ∨ c ∈ t := by
  induction t with
  | nil => simp [escapeBody] at h
  | cons d rest ih =>
      have h1 : escapeBody (d :: rest) = escapeChar d ++ escapeBody rest := rfl
      rw [h1] at h
      rcases List.mem_append.1 h with h2 | h3
      · rw [escapeChar] at h2
        by_cases hd : (d = '\\' || d = '"') = true
        · rw [if_pos hd] at h2
          rcases List.mem_cons.1 h2 with h4 | h5
          · exact Or.inl h4
          · simp at h5
            rw [h5]
            exact Or.inr (List.mem_cons_self d rest)
        · rw [if_neg hd] at h2
          simp at h2
          rw [h2]
          exact Or.inr (List.mem_cons_self d rest)
      · rcases ih h3 with h4 | h5
        · exact Or.inl h4
        · exact Or.inr (List.mem_cons_of_mem d h5)

/-- Escaping a newline-free value yields newline-free bytes. -/
lemma nl_notMem_escapeOut (x : List Char) (h : '\n' ∉ x) : '\n' ∉ escapeOut x := by
  intro hm
  rw [escapeOut] at hm
  have hbody : '\n' ∉ escapeBody x := by
    intro hb
    rcases mem_escapeBody '\n' x hb with h1 | h2
    · exact absurd h1 (by decide)
    · exact h h2
  by_cases hq : needsQuotesB x = true
  · rw [if_pos hq] at hm
    rcases List.mem_cons.1 hm with h1 | h2
    · exact absurd h1 (by decide)
    · rcases List.mem_append.1 h2 with h3 | h4
      · exact hbody h3
      · simp at h4
  · rw [if_neg hq] at hm
    exact hbody hm

/-- The argument-line body of newline-free arguments is newline-free. -/
lemma nl_notMem_argsBody (as : List (List Char)) :
    ∀ first, (∀ a ∈ as, '\n' ∉ a) → '\n' ∉ argsBody as first := by
  induction as with
  | nil => intro first h; simp [argsBody]
  | cons a rest ih =>
      intro first h
      have ha : '\n' ∉ a := h a (List.mem_cons_self a rest)
      have hrest : ∀ b ∈ rest, '\n' ∉ b := fun b hb => h b (List.mem_cons_of_mem a hb)
      have h1 : argsBody (a :: rest) first
          = (if first then [] else [' ']) ++ escapeOut a ++ argsBody rest false := rfl
      rw [h1]
      intro hm
      rcases List.mem_append.1 hm with h2 | h3
      · rcases List.mem_append.1 h2 with h4 | h5
        · by_cases hf : first
          · rw [if_pos hf] at h4; simp at h4
          · rw [if_neg hf] at h4
            simp at h4
        · exact nl_notMem_escapeOut a ha h5
      · exact ih false hrest h3

/-- writePid rewritten on a successful stat parse. -/
lemma writePid_some (w : World) (lf : LogFile) (pid v : Nat)
    (hv : statStartTick ((w.procStat pid).take 1023) = some v) :
    writePid w lf pid
      = some (writeChar (writeString (writeChar (writeString lf (uint64ToString pid)) '\n')
          (uint64ToString ((w.bootTicks + v) % U64))) '\n') := by
  rw [writePid, hv]

/-- logExecution on a nonempty log path with all identity reads succeeding. -/
lemma logExecution_eq (w : World) (lfn filename : List Char)
    (argv : Option (List (List Char))) (lf1 lf2 lf3 : LogFile)
    (hlfn : lfn ≠ [])
    (h1 : writePid w (writeString openLogFile (String.toList "exec\n")) w.ppid = some lf1)
    (h2 : writePid w lf1 w.pid = some lf2)
    (h3 : writeSymLinkTarget w.cwd lf2 = some lf3) :
    logExecution w lfn filename argv
      = LogResult.wrote (closeLogFile
          (writeChar (writeArgs (writeChar (writeEscapedString lf3 filename) '\n') argv) '\n')) := by
  rw [logExecution, if_neg hlfn]
  simp only [h1, h2, h3]

/-- Claim C1 (amended): with a nonempty log path and all identity reads
    succeeding, logExecution appends exactly one record made of nine
    newline-terminated fields in this order - the literal exec line, the
    parent pid, the parent start-tick-since-epoch, the self pid, the self
    start-tick, the escaped cwd, the escaped program filename, the argument
    line, and a blank line - so the record begins with the bytes of the exec
    line and ends with a blank line; when the cwd, filename and arguments
    contain no newline byte the record holds exactly nine newlines, that is,
    exactly seven lines between the exec line and the final blank line.  (A
    value containing a newline is quoted but written verbatim, adding physical
    lines; the unamended seven-line clause fails there.) -/
theorem logExecution_record (w : World) (lfn filename : List Char)
    (argv : Option (List (List Char))) (vp vs : Nat)
    (hlfn : lfn ≠ [])
    (hvp : statStartTick ((w.procStat w.ppid).take 1023) = some vp)
    (hvs : statStartTick ((w.procStat w.pid).take 1023) = some vs)
    (hcwd : w.cwd.length < 524288) :
    logExecution w lfn filename argv = LogResult.wrote
        (String.toList "exec\n"
          ++ uint64ToString w.ppid ++ ['\n']
          ++ uint64ToString ((w.bootTicks + vp) % U64) ++ ['\n']
          ++ uint64ToString w.pid ++ ['\n']
          ++ uint64ToString ((w.bootTicks + vs) % U64) ++ ['\n']
          ++ escapeOut w.cwd ++ ['\n']
          ++ escapeOut filename ++ ['\n']
          ++ argLine argv ++ ['\n']
          ++ ['\n'])
    ∧ ('\n' ∉ w.cwd → '\n' ∉ filename →
        (∀ as a, argv = some as → a ∈ as → '\n' ∉ a) →
        (String.toList "exec\n"
          ++ uint64ToString w.ppid ++ ['\n']
          ++ uint64ToString ((w.bootTicks + vp) % U64) ++ ['\n']
          ++ uint64ToString w.pid ++ ['\n']
          ++ uint64ToString ((w.bootTicks + vs) % U64) ++ ['\n']
          ++ escapeOut w.cwd ++ ['\n']
          ++ escapeOut filename ++ ['\n']
          ++ argLine argv ++ ['\n']
          ++ ['\n']).count '\n' = 9) := by
  constructor
  · rw [logExecution_eq w lfn filename argv _ _ _ hlfn
        (writePid_some w _ w.ppid vp hvp)
        (writePid_some w _ w.pid vs hvs)
        (by rw [writeSymLinkTarget_eq, if_pos hcwd])]
    rw [closeLogFile_eq_emitted]
    simp only [emitted_writeChar, emitted_writeArgs, emitted_writeEscapedString,
               emitted_writeString]
    simp [emitted, openLogFile, List.append_assoc]
  · intro hc hf ha
    have c1 : (String.toList "exec\n").count '\n' = 1 := by decide
    have cu : ∀ v2 : Nat, (uint64ToString v2).count '\n' = 0 :=
      fun v2 => List.count_eq_zero.2 (nl_notMem_uint64ToString v2)
    have cc : (escapeOut w.cwd).count '\n' = 0 :=
      List.count_eq_zero.2 (nl_notMem_escapeOut _ hc)
    have cf : (escapeOut filename).count '\n' = 0 :=
      List.count_eq_zero.2 (nl_notMem_escapeOut _ hf)
    have ca : (argLine argv).count '\n' = 0 := by
      cases hv : argv with
      | none => simp [argLine]
      | some as =>
          exact List.count_eq_zero.2
            (nl_notMem_argsBody as true (fun a hm => ha as a hv hm))
    simp [List.count_append, c1, cu, cc, cf, ca]

/-- Witness for C1 on the example world: the record is produced and, all
    values being newline-free, it has exactly nine newlines. -/
theorem logExecution_record_wit :
    String.toList "/tmp/t.log" ≠ []
    ∧ statStartTick ((wEx.procStat wEx.ppid).take 1023) = some 5000
    ∧ statStartTick ((wEx.procStat wEx.pid).take 1023) = some 5000
    ∧ wEx.cwd.length < 524288
    ∧ (logExecution wEx (String.toList "/tmp/t.log") (String.toList "/bin/ls")
          (some [String.toList "ls", String.toList "-l"]) = LogResult.wrote
          (String.toList "exec\n"
            ++ uint64ToString wEx.ppid ++ ['\n']
            ++ uint64ToString ((wEx.bootTicks + 5000) % U64) ++ ['\n']
            ++ uint64ToString wEx.pid ++ ['\n']
            ++ uint64ToString ((wEx.bootTicks + 5000) % U64) ++ ['\n']
            ++ escapeOut wEx.cwd ++ ['\n']
            ++ escapeOut (String.toList "/bin/ls") ++ ['\n']
            ++ argLine (some [String.toList "ls", String.toList "-l"]) ++ ['\n']
            ++ ['\n'])
       ∧ ('\n' ∉ wEx.cwd → '\n' ∉ String.toList "/bin/ls" →
          (∀ as a, (some [String.toList "ls", String.toList "-l"]
              : Option (List (List Char))) = some as → a ∈ as → '\n' ∉ a) →
          (String.toList "exec\n"
            ++ uint64ToString wEx.ppid ++ ['\n']
            ++ uint64ToString ((wEx.bootTicks + 5000) % U64) ++ ['\n']
            ++ uint64ToString wEx.pid ++ ['\n']
            ++ uint64ToString ((wEx.bootTicks + 5000) % U64) ++ ['\n']
            ++ escapeOut wEx.cwd ++ ['\n']
            ++ escapeOut (String.toList "/bin/ls") ++ ['\n']
            ++ argLine (some [String.toList "ls", String.toList "-l"]) ++ ['\n']
            ++ ['\n']).count '\n' = 9)) :=
  ⟨by decide, by decide, by decide, by decide,
   logExecution_record wEx (String.toList "/tmp/t.log") (String.toList "/bin/ls")
     (some [String.toList "ls", String.toList "-l"]) 5000 5000
     (by decide) (by decide) (by decide) (by decide)⟩

/-- Counterexample for C1 as stated: an argument containing a newline byte is
    quoted but written verbatim, so the appended record holds ten newlines
    rather than nine - the "exactly seven lines between them" clause fails. -/
theorem logExecution_record_cex :
    (wroteBytes (logExecution wEx (String.toList "/tmp/t.log") (String.toList "/bin/ls")
        (some [String.toList "a\nb"]))).count '\n' = 10 := by decide

/-- Claim C5: when BTRACE_LOG is unset, empty, or at least 1024 bytes long,
    the global log-path buffer stays empty, logExecution returns immediately
    without opening or creating any file, and both vector wrappers are pure
    pass-throughs handing back the real implementation's result (return value
    and errno) unchanged. -/
theorem disabled_passThrough {α : Type} (env : Option (List Char)) (w : World)
    (path : List Char) (argv envp : Option (List (List Char)))
    (realve realvpe : List Char → Option (List (List Char)) → Option (List (List Char)) → α)
    (h : env.getD [] = [] ∨ 1024 ≤ (env.getD []).length) :
    initLogFileName env = []
    ∧ logExecution w (initLogFileName env) path argv = LogResult.disabled
    ∧ wrap_execve realve w (initLogFileName env) path argv envp
        = (LogResult.disabled, realve path argv envp)
    ∧ wrap_execvpe realvpe w (initLogFileName env) path argv envp
        = (LogResult.disabled, realvpe path argv envp) := by
  have hinit : initLogFileName env = [] := by
    cases env with
    | none => rfl
    | some v =>
        simp only [Option.getD_some] at h
        rcases h with h1 | h1
        · subst h1
          simp [initLogFileName]
        · have hn : ¬ v.length < 1024 := by omega
          simp [initLogFileName, hn]
  have hdis : logExecution w (initLogFileName env) path argv = LogResult.disabled := by
    rw [hinit, logExecution, if_pos rfl]
  exact ⟨hinit, hdis, by rw [wrap_execve, hdis], by rw [wrap_execvpe, hdis]⟩

/-- Witness for C5 with a 1024-byte BTRACE_LOG value (silently ignored). -/
theorem disabled_passThrough_wit :
    ((some (List.replicate 1024 'a') : Option (List Char)).getD [] = []
        ∨ 1024 ≤ ((some (List.replicate 1024 'a') : Option (List Char)).getD []).length)
    ∧ (initLogFileName (some (List.replicate 1024 'a')) = []
       ∧ logExecution wEx (initLogFileName (some (List.replicate 1024 'a')))
           (String.toList "/bin/true") (some [String.toList "true"]) = LogResult.disabled
       ∧ wrap_execve realveEx wEx (initLogFileName (some (List.replicate 1024 'a')))
           (String.toList "/bin/true") (some [String.toList "true"]) none
           = (LogResult.disabled,
              realveEx (String.toList "/bin/true") (some [String.toList "true"]) none)
       ∧ wrap_execvpe realvpeEx wEx (initLogFileName (some (List.replicate 1024 'a')))
           (String.toList "/bin/true") (some [String.toList "true"]) none
           = (LogResult.disabled,
              realvpeEx (String.toList "/bin/true") (some [String.toList "true"]) none)) :=
  ⟨Or.inr (by simp), disabled_passThrough (some (List.replicate 1024 'a')) wEx
     (String.toList "/bin/true") (some [String.toList "true"]) none realveEx realvpeEx
     (Or.inr (by simp))⟩

/-- Claim C6: execle with a NULL leading argument builds the one-element
    argument vector holding only the NULL terminator, and still fetches the
    environment pointer from the variadic slot immediately after the NULL
    sentinel (the leading argument itself), passing it through to the real
    execve. -/
theorem execle_nullArg {α : Type}
    (realExecve : List Char → Option (List (List Char)) → Option (List (List Char)) → α)
    (w : World) (lfn path : List Char)
    (e : Option (List (List Char))) (rest : List VaSlot) :
    execle path none (VaSlot.envPtr e :: rest) = (path, [none], e)
    ∧ execleFull realExecve w lfn path none (VaSlot.envPtr e :: rest)
        = (logExecution w lfn path (some []), realExecve path (some []) e) := by
  have h1 : execle path none (VaSlot.envPtr e :: rest) = (path, [none], e) := by
    simp [execle, libbtrace_c_NULL_constant, vaArg, readEnvPtr, ARG_COUNT]
  refine ⟨h1, ?_⟩
  simp [execleFull, h1, wrap_execve, argvStrings]
